import Mathlib

/-!
# BookScout Product Helper — verification of the cataloging core

Shallow embedding of the BookScout source (`App.tsx` and `geminiService.ts`)
in Lean 4.  Text is modeled as a list of Unicode code points (`List Nat`),
which makes the ASCII case-mapping done by the Title Caser and the CSV
escaper plain natural-number arithmetic.  Geometry in the Image Cropper is
modeled over `ℚ` (JS numbers, exact arithmetic on the operations used).
External services (Gemini vision / synopsis calls, file readers, the DOM)
are modeled as explicit parameters carrying their outcome, and the React
`useState` collections are modeled as explicit state records.
-/

/-- Text: a JS string, as its list of code points. -/
abbrev Str := List Nat

/-- Code points of a Lean string literal (used only for literal constants). -/
def strC (s : String) : Str := s.data.map Char.toNat

/-- The space code point `' '`. -/
def spC : Nat := 32

/-- The double-quote code point. -/
def quoteC : Nat := 34

/-- The comma code point. -/
def commaC : Nat := 44

/-- The forward-slash code point. -/
def slashC : Nat := 47

/-- ASCII decimal digit test (regex `\d`). -/
def isDigitC (c : Nat) : Bool := decide (48 ≤ c ∧ c ≤ 57)

/-- ASCII lower-case letter. -/
def isLowerCode (c : Nat) : Prop := 97 ≤ c ∧ c ≤ 122

/-- ASCII upper-case letter. -/
def isUpperCode (c : Nat) : Prop := 65 ≤ c ∧ c ≤ 90

/-- ASCII alphabetic character. -/
def isAlphaCode (c : Nat) : Prop := isLowerCode c ∨ isUpperCode c

instance (c : Nat) : Decidable (isLowerCode c) := by unfold isLowerCode; infer_instance
instance (c : Nat) : Decidable (isUpperCode c) := by unfold isUpperCode; infer_instance
instance (c : Nat) : Decidable (isAlphaCode c) := by unfold isAlphaCode; infer_instance

/-- JS `String.prototype.toLowerCase`, on the ASCII repertoire: `A`–`Z`
maps to `a`–`z`, everything else is unchanged. -/
def lowerCode (c : Nat) : Nat := if 65 ≤ c ∧ c ≤ 90 then c + 32 else c

/-- JS `String.prototype.toUpperCase`, on the ASCII repertoire: `a`–`z`
maps to `A`–`Z`, everything else is unchanged. -/
def upperCode (c : Nat) : Nat := if 97 ≤ c ∧ c ≤ 122 then c - 32 else c

/-- JS whitespace test used by `String.prototype.trim` (space, tab, LF, CR). -/
def isWsC (c : Nat) : Bool := decide (c = 32 ∨ c = 9 ∨ c = 10 ∨ c = 13)

/-- JS `String.prototype.trim`: drop whitespace from both ends. -/
def trimWs (s : Str) : Str :=
  ((s.dropWhile isWsC).reverse.dropWhile isWsC).reverse

/-! ## Price Extractor (`App.tsx` — `extractPriceFromFilename`)

```js
const match = filename.match(/^(\d+)/);
return match ? match[1] : '';
```
The anchored greedy group `^(\d+)` captures exactly the maximal leading
run of ASCII digits, and the function returns the empty string when the
filename does not start with a digit — i.e. `takeWhile isDigit`. -/

def extractPriceFromFilename (filename : Str) : Str :=
  filename.takeWhile isDigitC

/-! ## Title Caser (`App.tsx` — `toTitleCase`)

```js
if (!str) return "";
return str.toLowerCase().split(' ')
          .map(word => word.charAt(0).toUpperCase() + word.slice(1))
          .join(' ');
```
-/

/-- JS `str.split(' ')`: split on every single space; never returns an
empty list (splitting the empty string gives `[""]`). -/
def splitSp : Str → List Str
  | [] => [[]]
  | c :: cs =>
    if c = spC then [] :: splitSp cs
    else
      match splitSp cs with
      | [] => [[c]]
      | w :: ws => (c :: w) :: ws

/-- JS `arr.join(' ')`. -/
def joinSp : List Str → Str
  | [] => []
  | [w] => w
  | w :: ws => w ++ spC :: joinSp ws

/-- JS `word.charAt(0).toUpperCase() + word.slice(1)` (for the empty word,
`charAt(0)` is `""` and `slice(1)` is `""`). -/
def capitalizeWord : Str → Str
  | [] => []
  | c :: cs => upperCode c :: cs

/-- The Title Caser. -/
def toTitleCase (s : Str) : Str :=
  if s = [] then []
  else joinSp ((splitSp (s.map lowerCode)).map capitalizeWord)

/-! ## Synopsis Adapter (`geminiService.ts` — `findOrGenerateSynopsis`)

The external Gemini call either throws (transport/service failure) or
returns a response whose `.text` is absent, empty, or some prose.  The
adapter catches every exception and returns a placeholder string, so its
Lean model is a *total* function of the transport outcome. -/

/-- Outcome of the external synopsis-service call. -/
inductive SynopsisOutcome where
  | failure (msg : Str)
  | success (text : Option Str)
deriving DecidableEq

/-- The fixed placeholder returned on any transport/service failure. -/
def synopsisErrorPlaceholder : Str :=
  strC "Could not retrieve synopsis due to an error."

/-- Model of `findOrGenerateSynopsis`, as a total function of the service outcome:
`catch` → placeholder; falsy `.text` (absent or `""`) → fixed message;
otherwise the trimmed text. -/
def findOrGenerateSynopsis (o : SynopsisOutcome) : Str :=
  match o with
  | .failure _ => synopsisErrorPlaceholder
  | .success none => strC "Synopsis could not be generated."
  | .success (some txt) =>
      if txt = [] then strC "Synopsis could not be generated." else trimWs txt

/-! ## Identification Adapter result (`types.ts` — `BookAnalysisResult`)

All fields optional: the upstream model may omit any of them.  `price` and
`synopsis` exist on the TS interface but are never read by the pipeline. -/

structure BookAnalysisResult where
  title : Option Str
  author : Option Str
  box_2d : Option (List ℚ)
  categories : Option (List Str)
  category : Option Str
deriving DecidableEq

/-- JS `opt || dflt` for an optional string: the string when present and
non-empty (truthy), the default otherwise. -/
def orElseStr (o : Option Str) (dflt : Str) : Str :=
  match o with
  | some s => if s = [] then dflt else s
  | none => dflt

/-! ## Image Cropper (`App.tsx` — `cropImage`)

```js
let y = (ymin / 1000) * height;  let x = (xmin / 1000) * width;
let h = ((ymax - ymin) / 1000) * height;  let w = ((xmax - xmin) / 1000) * width;
x = Math.max(0, x);  y = Math.max(0, y);
w = Math.min(width - x, w);  h = Math.min(height - y, h);
if (w <= 0 || h <= 0) { resolve(base64); return; }
```
Decoding the asset (`img.onload` / `img.onerror`) is environmental: we
model it as an optional pair of intrinsic pixel dimensions; `onerror`
(and the `catch` / null-context paths) resolve to the original asset. -/

/-- Clamped crop-x: `Math.max(0, (xmin/1000)*width)`. -/
def clampedX (box : ℚ × ℚ × ℚ × ℚ) (W : ℚ) : ℚ :=
  max 0 (box.2.1 / 1000 * W)

/-- Clamped crop-y: `Math.max(0, (ymin/1000)*height)`. -/
def clampedY (box : ℚ × ℚ × ℚ × ℚ) (H : ℚ) : ℚ :=
  max 0 (box.1 / 1000 * H)

/-- Clamped crop width: `Math.min(width - x, ((xmax-xmin)/1000)*width)`. -/
def clampedW (box : ℚ × ℚ × ℚ × ℚ) (W : ℚ) : ℚ :=
  min (W - clampedX box W) ((box.2.2.2 - box.2.1) / 1000 * W)

/-- Clamped crop height: `Math.min(height - y, ((ymax-ymin)/1000)*height)`. -/
def clampedH (box : ℚ × ℚ × ℚ × ℚ) (H : ℚ) : ℚ :=
  min (H - clampedY box H) ((box.2.2.1 - box.1) / 1000 * H)

/-- The crop rectangle, or `none` when the clamped geometry is degenerate
(`w <= 0 || h <= 0`) and the cropper falls back to the original asset.
The box is `(ymin, xmin, ymax, xmax)` on the 0–1000 normalized scale. -/
def cropRect (box : ℚ × ℚ × ℚ × ℚ) (W H : ℚ) : Option (ℚ × ℚ × ℚ × ℚ) :=
  if clampedW box W ≤ 0 ∨ clampedH box H ≤ 0 then none
  else some (clampedX box W, clampedY box H, clampedW box W, clampedH box H)

/-- What `cropImage` resolves with: the original asset unchanged, or a
crop of the stated pixel rectangle. -/
inductive CropOutcome where
  | original
  | cropped (x y w h : ℚ)
deriving DecidableEq

/-- Model of `cropImage`: `decoded = none` is the `img.onerror` path (source asset
failed to decode) — resolve with the original; otherwise compute the
clamped rectangle and fall back to the original when it is degenerate. -/
def cropImage (decoded : Option (ℚ × ℚ)) (box : ℚ × ℚ × ℚ × ℚ) : CropOutcome :=
  match decoded with
  | none => .original
  | some dims =>
    match cropRect box dims.1 dims.2 with
    | none => .original
    | some r => .cropped r.1 r.2.1 r.2.2.1 r.2.2.2

/-! ## Cataloging Pipeline (`App.tsx` — `processImagePipeline`)

The two external calls are parameters: `identify` is the outcome of
`identifyBookFromImage` (which throws `IdentificationError` on any hard
failure), `synopsisOf` the (total, §4.5) Synopsis Adapter, and `crop`
the resolved value of `cropImage` on the given asset and box. -/

structure PipeOut where
  title : Str
  author : Str
  category : Str
  synopsis : Str
  processedImage : Str
deriving DecidableEq

/-- The category-assembly step of the pipeline:
```js
let category = "";
if (identity.categories && identity.categories.length > 0) {
  category = identity.categories.join(", ");
} else if (identity.category) {
  category = identity.category;
}
```
-/
def pipelineCategory (identity : BookAnalysisResult) : Str :=
  match identity.categories with
  | some cs =>
    if cs.length > 0 then List.intercalate (strC ", ") cs
    else match identity.category with
         | some c => if c = [] then [] else c
         | none => []
  | none =>
    match identity.category with
    | some c => if c = [] then [] else c
    | none => []

/-- Model of `processImagePipeline`.  Fails only when identification fails; the
crop is invoked exactly when `autoCrop` is on and a 4-component bounding
box is present. -/
def processImagePipeline (identify : Except Str BookAnalysisResult)
    (synopsisOf : Str → Str → Str) (crop : Str → List ℚ → Str)
    (base64Image : Str) (autoCrop : Bool) : Except Str PipeOut :=
  match identify with
  | .error e => .error e
  | .ok identity =>
    let title := toTitleCase (orElseStr identity.title (strC "Unknown Title"))
    let author := toTitleCase (orElseStr identity.author (strC "Unknown Author"))
    let category := pipelineCategory identity
    let processedImage :=
      match identity.box_2d with
      | some b => if autoCrop ∧ b.length = 4 then crop base64Image b else base64Image
      | none => base64Image
    let synopsis := synopsisOf title author
    .ok ⟨title, author, category, synopsis, processedImage⟩

/-! ## Data model (`types.ts`) -/

/-- The `BookData` record. -/
structure BookData where
  title : Str
  author : Str
  synopsis : Str
  price : Str
  category : Str
deriving DecidableEq

/-- The `BulkImportItem` status strings `'idle' | 'processing' | 'completed' | 'error'`. -/
inductive BulkStatus where
  | idle
  | processing
  | completed
  | error
deriving DecidableEq

/-- The `BulkImportItem` record.  `file` is the selected file's name (the only part
of the `File` handle the logic reads besides its bytes); `previewUrl` is
an environment-created object URL used only for display and not modeled. -/
structure BulkImportItem where
  id : Str
  file : Str
  status : BulkStatus
  data : BookData
  processedImage : Option Str
  error : Option Str
deriving DecidableEq

/-- The `HistoryItem` record (`BookData` plus identity, image and timestamp). -/
structure HistoryItem where
  id : Str
  image : Str
  timestamp : Nat
  title : Str
  author : Str
  synopsis : Str
  price : Str
  category : Str
deriving DecidableEq

/-- The two persistent `useState` collections driven by export/archive:
`history` (Uploaded) and `archived`, both newest-first. -/
structure AppState where
  history : List HistoryItem
  archived : List HistoryItem
deriving DecidableEq

/-! ## Batch intake (`App.tsx` — `handleBulkFilesSelected`)

Each selected file becomes an idle item whose record is empty except for
the price extracted from the filename.  `crypto.randomUUID()` is
environmental, so the fresh ids come in paired with the filenames. -/

def handleBulkFilesSelected (files : List (Str × Str)) : List BulkImportItem :=
  files.map fun idName =>
    { id := idName.1
      file := idName.2
      status := .idle
      data := { title := [], author := [], synopsis := [],
                price := extractPriceFromFilename idName.2, category := [] }
      processedImage := none
      error := none }

/-! ## Batch Orchestrator (`App.tsx` — `startBulkProcessing`)

```js
const itemsToProcess = bulkItems.filter(item => item.status === 'idle');
for (const item of itemsToProcess) {
  setBulkItems(prev => prev.map(i => i.id === item.id ? { ...i, status: 'processing' } : i));
  try {
    const result = await processImagePipeline(base64, autoCrop);
    setBulkItems(prev => prev.map(i => i.id === item.id ? {
      ...i, status: 'completed',
      data: { ...i.data, ...result, price: i.data.price },
      processedImage: result.processedImage } : i));
  } catch (e) {
    setBulkItems(prev => prev.map(i => i.id === item.id ? { ...i, status: 'error', error: 'Failed' } : i));
  }
}
```
The loop touches each selected item only through its (immutable) `id`,
and the pipeline outcome for an item is determined by its (immutable)
`file`; we therefore index the per-item pipeline outcome by item id. -/

/-- JS `prev.map(i => i.id === id ? f(i) : i)`. -/
def updateById (l : List BulkImportItem) (id : Str) (f : BulkImportItem → BulkImportItem) :
    List BulkImportItem :=
  l.map fun x => if x.id = id then f x else x

/-- The merge `data: { ...i.data, ...result, price: i.data.price }` — every record
field is overwritten from the pipeline output except `price`, which keeps
the item's existing value. -/
def mergeData (d : BookData) (r : PipeOut) : BookData :=
  { title := r.title, author := r.author, synopsis := r.synopsis,
    price := d.price, category := r.category }

/-- One iteration of the orchestrator loop body for the item with the
given id, then the rest of the id list. -/
def runBatch (pipeline : Str → Except Str PipeOut) :
    List BulkImportItem → List Str → List BulkImportItem
  | items, [] => items
  | items, id :: rest =>
    let items1 := updateById items id fun x => { x with status := .processing }
    let items2 :=
      match pipeline id with
      | .ok r => updateById items1 id fun x =>
          { x with status := .completed, data := mergeData x.data r,
                   processedImage := some r.processedImage }
      | .error _ => updateById items1 id fun x =>
          { x with status := .error, error := some (strC "Failed") }
    runBatch pipeline items2 rest

/-- Model of `startBulkProcessing` (the `isBulkProcessing` re-entrancy flag is set
around the loop and carries no item state; it is not modeled here). -/
def startBulkProcessing (pipeline : Str → Except Str PipeOut)
    (bulkItems : List BulkImportItem) : List BulkImportItem :=
  runBatch pipeline bulkItems
    ((bulkItems.filter fun i => i.status = .idle).map fun i => i.id)

/-! ## Scanner handler (`App.tsx` — `handleScannerFileSelected`)

On pipeline success the new `bookData` takes title/author/synopsis/
category from the pipeline result and `price` from the filename
(`price: extractedPrice`); on pipeline failure `bookData` stays `null`
and the error state is entered. -/

def handleScannerFileSelected (filename : Str) (pipeline : Except Str PipeOut) :
    Option BookData :=
  match pipeline with
  | .error _ => none
  | .ok r => some { title := r.title, author := r.author, synopsis := r.synopsis,
                    category := r.category, price := extractPriceFromFilename filename }

/-! ## Export Serializer (`App.tsx` — `exportToWooCommerce`) -/

/-- JS `text.replace(/"/g, '""')`. -/
def doubleQuotes : Str → Str
  | [] => []
  | c :: cs => (if c = quoteC then [quoteC, quoteC] else [c]) ++ doubleQuotes cs

/-- The per-cell escaper:
```js
const escape = (text) => { if (!text) return ""; return `"${text.replace(/"/g, '""')}"`; };
```
-/
def escapeCell (text : Str) : Str :=
  if text = [] then []
  else quoteC :: (doubleQuotes text ++ [quoteC])

/-- JS `item.category.replace(/\//g, ',')`. -/
def slashToComma (s : Str) : Str :=
  s.map fun c => if c = slashC then commaC else c

/-- The post_title text `${item.title} – ${item.author}` (en dash). -/
def titleDashAuthor (i : HistoryItem) : Str :=
  i.title ++ strC " – " ++ i.author

/-- The 16 cells of one CSV row, in header order
`parent_sku, sku, post_title, post_excerpt, post_content, post_status,
regular_price, sale_price, stock_status, stock, manage_stock, weight,
Images, tax:product_type, tax:product_cat, tax:product_tag`.
The image URL is date- and environment-derived, so it is a parameter. -/
def rowCells (i : HistoryItem) (imageUrl : Str) : List Str :=
  [ [],
    escapeCell (i.id.take 8),
    escapeCell (titleDashAuthor i),
    escapeCell i.synopsis,
    escapeCell i.synopsis,
    strC "publish",
    i.price,
    [],
    strC "instock",
    strC "1",
    strC "yes",
    [],
    imageUrl,
    strC "simple",
    escapeCell (slashToComma i.category),
    escapeCell i.author ]

/-- The entry-derived text cells of a row, paired with the text that
feeds each cell: sku, post_title, post_excerpt, post_content,
regular_price, tax:product_cat, tax:product_tag. -/
def rowTextFields (i : HistoryItem) (imageUrl : Str) : List (Str × Str) :=
  [ (i.id.take 8, (rowCells i imageUrl).getD 1 []),
    (titleDashAuthor i, (rowCells i imageUrl).getD 2 []),
    (i.synopsis, (rowCells i imageUrl).getD 3 []),
    (i.synopsis, (rowCells i imageUrl).getD 4 []),
    (i.price, (rowCells i imageUrl).getD 6 []),
    (slashToComma i.category, (rowCells i imageUrl).getD 14 []),
    (i.author, (rowCells i imageUrl).getD 15 []) ]

/-- The subset of `rowTextFields` that the source routes through
`escape` (everything except `regular_price`). -/
def escapedTextFields (i : HistoryItem) (imageUrl : Str) : List (Str × Str) :=
  [ (i.id.take 8, (rowCells i imageUrl).getD 1 []),
    (titleDashAuthor i, (rowCells i imageUrl).getD 2 []),
    (i.synopsis, (rowCells i imageUrl).getD 3 []),
    (i.synopsis, (rowCells i imageUrl).getD 4 []),
    (slashToComma i.category, (rowCells i imageUrl).getD 14 []),
    (i.author, (rowCells i imageUrl).getD 15 []) ]

/-- The shape "wrapped in double quotes with every internal double-quote doubled"
for source text `src`. -/
def quoteWrapped (src cell : Str) : Prop :=
  cell = quoteC :: (doubleQuotes src ++ [quoteC])

instance (src cell : Str) : Decidable (quoteWrapped src cell) := by
  unfold quoteWrapped; infer_instance

/-- The state effect of `exportToWooCommerce`: empty history is a
guarded no-op (`if (history.length === 0) return;`); otherwise the whole
history moves, in order, to the front of the archive and history is
cleared:
```js
const justProcessed = [...history];
setArchived(prev => [...justProcessed, ...prev]);
setHistory([]);
```
(The ZIP/CSV payload is built from the same `history` list and is pure
output; the row shape is modeled by `rowCells` above.) -/
def exportToWooCommerceState (st : AppState) : AppState :=
  if st.history = [] then st
  else { history := [], archived := st.history ++ st.archived }

/-! ## Archive restore (`App.tsx` — `restoreArchivedItem`)

```js
const itemToRestore = archived.find(item => item.id === id);
if (itemToRestore) {
  setArchived(prev => prev.filter(item => item.id !== id));
  setHistory(prev => [itemToRestore, ...prev]);
}
```
-/
def restoreArchivedItem (st : AppState) (id : Str) : AppState :=
  match st.archived.find? (fun i => i.id = id) with
  | none => st
  | some item =>
    { history := item :: st.history,
      archived := st.archived.filter fun i => ¬ (i.id = id) }

/-! ## Derived characterization of the orchestrator loop

`finalizeItem` is the net per-item effect of one loop iteration: the
transient `processing` status is immediately overwritten by the final
one, so an item selected for processing ends in exactly this state. -/

def finalizeItem (pipeline : Str → Except Str PipeOut) (x : BulkImportItem) :
    BulkImportItem :=
  match pipeline x.id with
  | .ok r =>
    { x with status := .completed, data := mergeData x.data r,
             processedImage := some r.processedImage }
  | .error _ => { x with status := .error, error := some (strC "Failed") }

/-- Claim predicate: the first alphabetic character of the word is uppercase (vacuously
true for a word with no alphabetic character). -/
def firstAlphaUpper (w : Str) : Bool :=
  match (w.filter fun c => decide (isAlphaCode c)).head? with
  | some c => decide (isUpperCode c)
  | none => true

/-! ## Concrete fixtures for witnesses and counterexamples -/

/-- An identification result with no `categories` list but a non-empty
legacy single `category` field. -/
def identityCx : BookAnalysisResult :=
  { title := some (strC "X"), author := some (strC "Y"), box_2d := none,
    categories := none, category := some (strC "Fiction") }

/-- A history entry whose operator-edited price contains a comma. -/
def itemCx : HistoryItem :=
  { id := strC "abcd1234-0000", image := [], timestamp := 0,
    title := strC "T", author := strC "A", synopsis := strC "S",
    price := strC "1,5", category := strC "C" }

/-- A history entry whose synopsis contains a double quote. -/
def itemW : HistoryItem :=
  { id := strC "w1", image := [], timestamp := 0,
    title := strC "T", author := strC "A", synopsis := strC "a\"b",
    price := strC "25", category := strC "C" }

/-- A fixed pipeline output used by bulk fixtures. -/
def pipeOutW : PipeOut :=
  { title := strC "New Title", author := strC "New Author",
    category := strC "Fiction", synopsis := strC "Syn",
    processedImage := strC "img" }

/-- Two pending bulk items. -/
def bulkItemA : BulkImportItem :=
  { id := strC "a", file := strC "10.jpg", status := .idle,
    data := { title := [], author := [], synopsis := [],
              price := strC "10", category := [] },
    processedImage := none, error := none }

def bulkItemB : BulkImportItem :=
  { id := strC "b", file := strC "20.jpg", status := .idle,
    data := { title := [], author := [], synopsis := [],
              price := strC "20", category := [] },
    processedImage := none, error := none }

def bulkItemsW : List BulkImportItem := [bulkItemA, bulkItemB]

/-- A pipeline that hard-fails exactly on item `"b"`. -/
def pipelineW (id : Str) : Except Str PipeOut :=
  if id = strC "b" then .error (strC "E") else .ok pipeOutW

/-- Two intake files (fresh id paired with filename). -/
def filesW : List (Str × Str) :=
  [(strC "a", strC "380.1.jpg"), (strC "b", strC "cover.jpg")]

/-- A pipeline that succeeds on every item. -/
def pipelineOkW (_ : Str) : Except Str PipeOut := .ok pipeOutW

/-- One history entry and one previously archived entry. -/
def entryA : HistoryItem :=
  { id := strC "h1", image := strC "i1", timestamp := 1,
    title := strC "T1", author := strC "A1", synopsis := strC "S1",
    price := strC "10", category := strC "C1" }

def entryB : HistoryItem :=
  { id := strC "z9", image := strC "i9", timestamp := 9,
    title := strC "T9", author := strC "A9", synopsis := strC "S9",
    price := strC "90", category := strC "C9" }

def stW : AppState := { history := [entryA], archived := [entryB] }

/-! # Theorems -/

/-- Helper: `find?` on a list whose mapped ids are nodup returns exactly
the member that carries the requested id. -/
theorem find?_id_eq (l : List HistoryItem) (e : HistoryItem)
    (he : e ∈ l) (hnd : (l.map HistoryItem.id).Nodup) :
    l.find? (fun i => i.id = e.id) = some e := by
  induction l with
  | nil => cases he
  | cons a t ih =>
    rcases List.mem_cons.mp he with rfl | hmem
    · exact List.find?_cons_of_pos _ (by simp)
    · have hne : a.id ≠ e.id := by
        intro h
        have : e.id ∈ t.map HistoryItem.id := List.mem_map_of_mem _ hmem
        have := (List.nodup_cons.mp hnd).1
        exact this (h ▸ List.mem_map_of_mem _ hmem)
      rw [List.find?_cons_of_neg _ (by simp [hne])]
      exact ih hmem (List.nodup_cons.mp hnd).2

/-- C9 — Synopsis soft failure: the Synopsis Adapter is a total function
of the service outcome (it never re-raises), and on any transport or
service failure it returns the fixed placeholder string as a normal
result. -/
theorem synopsis_soft_failure (msg : Str) :
    findOrGenerateSynopsis (.failure msg) =
      strC "Could not retrieve synopsis due to an error." := rfl

/-- C10 — Single-item price provenance: in scanner mode, when the
pipeline succeeds the saved record's price is exactly the leading digit
run of the uploaded file's name (empty if none), and the pipeline output
never contributes to the price (two runs differing only in pipeline
output agree on it). -/
theorem scanner_price_provenance (filename : Str) (r r' : PipeOut) :
    (∃ bd, handleScannerFileSelected filename (.ok r) = some bd ∧
      bd.price = filename.takeWhile isDigitC ∧
      bd.price = extractPriceFromFilename filename ∧
      bd.title = r.title ∧ bd.author = r.author ∧
      bd.synopsis = r.synopsis ∧ bd.category = r.category) ∧
    Option.map BookData.price (handleScannerFileSelected filename (.ok r)) =
      Option.map BookData.price (handleScannerFileSelected filename (.ok r')) := by
  exact ⟨⟨_, rfl, rfl, rfl, rfl, rfl, rfl, rfl⟩, rfl⟩

/-- C6 — Cropper clamping and fallback: a failed decode yields the
original asset; a degenerate clamped width/height (≤ 0) yields the
original asset; and any actual crop has `x,y ≥ 0`, positive width and
height, width ≤ source width and height ≤ source height. -/
theorem cropImage_safe (box : ℚ × ℚ × ℚ × ℚ) (W H : ℚ) :
    cropImage none box = .original ∧
    ((clampedW box W ≤ 0 ∨ clampedH box H ≤ 0) →
      cropImage (some (W, H)) box = .original) ∧
    (∀ x y w h, cropImage (some (W, H)) box = .cropped x y w h →
      0 ≤ x ∧ 0 ≤ y ∧ 0 < w ∧ 0 < h ∧ w ≤ W ∧ h ≤ H) := by
  have hsome : cropImage (some (W, H)) box =
      (match cropRect box W H with
       | none => CropOutcome.original
       | some r => CropOutcome.cropped r.1 r.2.1 r.2.2.1 r.2.2.2) := rfl
  refine ⟨rfl, ?_, ?_⟩
  · intro hdeg
    have h0 : cropRect box W H = none := by
      unfold cropRect
      exact if_pos hdeg
    rw [hsome, h0]
  · intro x y w h hc
    rw [hsome] at hc
    by_cases hdeg : clampedW box W ≤ 0 ∨ clampedH box H ≤ 0
    · have h0 : cropRect box W H = none := by
        unfold cropRect
        exact if_pos hdeg
      rw [h0] at hc
      cases hc
    · have h0 : cropRect box W H =
          some (clampedX box W, clampedY box H, clampedW box W, clampedH box H) := by
        unfold cropRect
        exact if_neg hdeg
      rw [h0] at hc
      push_neg at hdeg
      simp only [CropOutcome.cropped.injEq] at hc
      obtain ⟨hx, hy, hw, hh⟩ := hc
      subst hx; subst hy; subst hw; subst hh
      refine ⟨le_max_left 0 _, le_max_left 0 _, hdeg.1, hdeg.2, ?_, ?_⟩
      · exact le_trans (min_le_left _ _) (sub_le_self W (le_max_left 0 _))
      · exact le_trans (min_le_left _ _) (sub_le_self H (le_max_left 0 _))

/-- Witness for `cropImage_safe`: the full-frame box on an 800×600 image
produces the full 800×600 crop, and the theorem's bounds hold there. -/
theorem cropImage_safe_witness :
    (0:ℚ) ≤ 0 ∧ (0:ℚ) ≤ 0 ∧ (0:ℚ) < 800 ∧ (0:ℚ) < 600 ∧
      (800:ℚ) ≤ 800 ∧ (600:ℚ) ≤ 600 := by
  have hX : clampedX (0, 0, 1000, 1000) 800 = 0 := by
    unfold clampedX; norm_num
  have hY : clampedY (0, 0, 1000, 1000) 600 = 0 := by
    unfold clampedY; norm_num
  have hW : clampedW (0, 0, 1000, 1000) 800 = 800 := by
    unfold clampedW; rw [hX]; norm_num
  have hH : clampedH (0, 0, 1000, 1000) 600 = 600 := by
    unfold clampedH; rw [hY]; norm_num
  have h0 : cropRect (0, 0, 1000, 1000) 800 600 = some (0, 0, 800, 600) := by
    unfold cropRect
    rw [hX, hY, hW, hH]
    norm_num
  refine (cropImage_safe (0, 0, 1000, 1000) 800 600).2.2 0 0 800 600 ?_
  show (match cropRect (0, 0, 1000, 1000) 800 600 with
        | none => CropOutcome.original
        | some r => CropOutcome.cropped r.1 r.2.1 r.2.2.1 r.2.2.2) =
      CropOutcome.cropped 0 0 800 600
  rw [h0]

/-- C2 — Export post-effect: for a non-empty history, after export the
history is empty and the archive's front N entries are exactly the
pre-export history entries, unchanged and in order, ahead of the
previously archived entries. -/
theorem export_archives_history (st : AppState) (hne : st.history ≠ []) :
    (exportToWooCommerceState st).history = [] ∧
    (exportToWooCommerceState st).archived = st.history ++ st.archived ∧
    (exportToWooCommerceState st).archived.take st.history.length = st.history := by
  unfold exportToWooCommerceState
  rw [if_neg hne]
  exact ⟨rfl, rfl, List.take_left _ _⟩

/-- Witness for `export_archives_history` at a concrete one-entry
history with a pre-existing archive entry. -/
theorem export_archives_history_witness :
    (exportToWooCommerceState stW).history = [] ∧
    (exportToWooCommerceState stW).archived = stW.history ++ stW.archived ∧
    (exportToWooCommerceState stW).archived.take stW.history.length = stW.history :=
  export_archives_history stW (by decide)

/-- C8 — Archive/restore round trip: archiving a history entry via the
export's archive-all step and then restoring its identity puts the very
same entry (every field identical) back into history, and it is no
longer in the archive. -/
theorem archive_restore_roundtrip (st : AppState) (e : HistoryItem)
    (he : e ∈ st.history)
    (hnd : ((st.history ++ st.archived).map HistoryItem.id).Nodup) :
    (restoreArchivedItem (exportToWooCommerceState st) e.id).history = [e] ∧
    e ∉ (restoreArchivedItem (exportToWooCommerceState st) e.id).archived := by
  have hne : st.history ≠ [] := List.ne_nil_of_mem he
  have hst : exportToWooCommerceState st =
      { history := [], archived := st.history ++ st.archived } := by
    unfold exportToWooCommerceState
    rw [if_neg hne]
  rw [hst]
  have hmem : e ∈ st.history ++ st.archived := List.mem_append_left _ he
  unfold restoreArchivedItem
  rw [find?_id_eq _ _ hmem hnd]
  refine ⟨rfl, ?_⟩
  simp [List.mem_filter]

/-- Witness for `archive_restore_roundtrip` at a concrete state with one
history entry and one previously archived entry. -/
theorem archive_restore_roundtrip_witness :
    (restoreArchivedItem (exportToWooCommerceState stW) entryA.id).history = [entryA] ∧
    entryA ∉ (restoreArchivedItem (exportToWooCommerceState stW) entryA.id).archived :=
  archive_restore_roundtrip stW entryA (by decide) (by decide)

/-- C4 counterexample — the claim "categories absent or empty implies
empty category text" is false on the code: with no `categories` list but
a non-empty legacy `category` field, the pipeline outputs that field. -/
theorem pipeline_category_counterexample :
    identityCx.categories = none ∧
    Except.map PipeOut.category
      (processImagePipeline (.ok identityCx) (fun _ _ => []) (fun b _ => b) [] false)
      = .ok (strC "Fiction") ∧
    strC "Fiction" ≠ ([] : Str) := by
  refine ⟨rfl, rfl, by decide⟩

/-- C4 (amended) — Pipeline category assembly: when the identification
result's `categories` list is present and non-empty, the output category
is the labels joined by the fixed delimiter `", "`; when it is absent or
empty, the output falls back to the legacy single `category` field if
that is present and non-empty; the output is empty text only when both
are absent or empty. -/
theorem pipeline_category_amended (identity : BookAnalysisResult)
    (synopsisOf : Str → Str → Str) (crop : Str → List ℚ → Str)
    (base64Image : Str) (autoCrop : Bool) :
    ∀ out, processImagePipeline (.ok identity) synopsisOf crop base64Image autoCrop
        = .ok out →
      (∀ cs, identity.categories = some cs → cs ≠ [] →
        out.category = List.intercalate (strC ", ") cs) ∧
      ((identity.categories = none ∨ identity.categories = some []) →
        ∀ c, identity.category = some c → c ≠ [] → out.category = c) ∧
      ((identity.categories = none ∨ identity.categories = some []) →
        (identity.category = none ∨ identity.category = some []) →
        out.category = []) := by
  intro out hout
  have hcat : out.category = pipelineCategory identity := by
    unfold processImagePipeline at hout
    injection hout with h
    rw [← h]
  refine ⟨?_, ?_, ?_⟩
  · intro cs hcs hne
    rw [hcat]
    simp [pipelineCategory, hcs, List.length_pos.mpr hne]
  · rintro (h | h) c hc hne
    · rw [hcat]; simp [pipelineCategory, h, hc, hne]
    · rw [hcat]; simp [pipelineCategory, h, hc, hne]
  · rintro (h | h) (h' | h')
    · rw [hcat]; simp [pipelineCategory, h, h']
    · rw [hcat]; simp [pipelineCategory, h, h']
    · rw [hcat]; simp [pipelineCategory, h, h']
    · rw [hcat]; simp [pipelineCategory, h, h']

/-- Witness for `pipeline_category_amended`: the legacy-fallback branch
at the concrete counterexample input. -/
theorem pipeline_category_amended_witness :
    ∃ out, processImagePipeline (.ok identityCx) (fun _ _ => []) (fun b _ => b) [] false
        = .ok out ∧ out.category = strC "Fiction" := by
  refine ⟨_, rfl, ?_⟩
  exact ((pipeline_category_amended identityCx (fun _ _ => []) (fun b _ => b) [] false
    _ rfl).2.1 (Or.inl rfl) (strC "Fiction") rfl (by decide))

/-- C5 counterexample — the claim "every text field containing the
delimiter or a quote is quote-wrapped" is false on the code: the
`regular_price` cell is emitted raw, so a price containing a comma is
not wrapped. -/
theorem export_escaping_counterexample :
    commaC ∈ itemCx.price ∧
    ¬ (∀ p ∈ rowTextFields itemCx [], (commaC ∈ p.1 ∨ quoteC ∈ p.1) →
        quoteWrapped p.1 p.2) := by
  constructor
  · decide
  · decide

/-- C5 (amended) — Export escaping: every text field that the export
routes through the cell escaper (sku, post_title, post_excerpt,
post_content, tax:product_cat, tax:product_tag) is, whenever its text
contains the comma delimiter or a double quote, emitted wrapped in
double quotes with every internal double quote doubled; the
`regular_price` cell alone is emitted raw, without this escaping. -/
theorem export_escaping_amended (i : HistoryItem) (url : Str) :
    ∀ p ∈ escapedTextFields i url, (commaC ∈ p.1 ∨ quoteC ∈ p.1) →
      quoteWrapped p.1 p.2 := by
  intro p hp
  have hcell : ∀ src : Str, src ≠ [] → quoteWrapped src (escapeCell src) := by
    intro src hne
    unfold quoteWrapped escapeCell
    rw [if_neg hne]
  simp only [escapedTextFields, List.mem_cons, List.not_mem_nil, or_false] at hp
  rcases hp with h | h | h | h | h | h <;> subst h <;> intro hcq <;>
    rcases hcq with h' | h' <;>
    exact hcell _ (List.ne_nil_of_mem h')

/-- Witness for `export_escaping_amended`: the post_excerpt cell of a
concrete entry whose synopsis contains a double quote. -/
theorem export_escaping_amended_witness :
    quoteWrapped itemW.synopsis ((rowCells itemW []).getD 3 []) :=
  export_escaping_amended itemW []
    (itemW.synopsis, (rowCells itemW []).getD 3 []) (by decide) (by decide)

/-! ## Title Caser lemmas -/

/-- JS `toLowerCase` maps a character to a space only if it was a space. -/
theorem lowerCode_eq_sp (c : Nat) : lowerCode c = spC ↔ c = spC := by
  unfold lowerCode spC
  split <;> omega

/-- JS `toUpperCase` maps a character to a space only if it was a space. -/
theorem upperCode_eq_sp (c : Nat) : upperCode c = spC ↔ c = spC := by
  unfold upperCode spC
  split <;> omega

theorem splitSp_ne_nil (l : Str) : splitSp l ≠ [] := by
  cases l with
  | nil => simp [splitSp]
  | cons c cs =>
    unfold splitSp
    split
    · simp
    · cases splitSp cs <;> simp

theorem splitSp_no_sp (l : Str) : ∀ w ∈ splitSp l, spC ∉ w := by
  induction l with
  | nil => simp [splitSp]
  | cons c cs ih =>
    unfold splitSp
    by_cases hc : c = spC
    · rw [if_pos hc]
      intro w hw
      rcases List.mem_cons.mp hw with rfl | hmem
      · simp
      · exact ih w hmem
    · rw [if_neg hc]
      cases h : splitSp cs with
      | nil => exact absurd h (splitSp_ne_nil cs)
      | cons w ws =>
        intro w' hw'
        have hw2 : w' ∈ (c :: w) :: ws := hw'
        rcases List.mem_cons.mp hw2 with rfl | hmem
        · intro hsp
          rcases List.mem_cons.mp hsp with h1 | h2
          · exact hc h1.symm
          · exact ih w (by rw [h]; exact List.mem_cons_self _ _) h2
        · exact ih w' (by rw [h]; exact List.mem_cons_of_mem _ hmem)

theorem splitSp_append (w : Str) (rest : Str) (r : Str) (rs : List Str)
    (hw : spC ∉ w) (hr : splitSp rest = r :: rs) :
    splitSp (w ++ rest) = (w ++ r) :: rs := by
  induction w with
  | nil => simpa using hr
  | cons c cs ih =>
    have hc : c ≠ spC := fun h => hw (h ▸ List.mem_cons_self c cs)
    have hcs : spC ∉ cs := fun h => hw (List.mem_cons_of_mem _ h)
    show splitSp (c :: (cs ++ rest)) = ((c :: cs) ++ r) :: rs
    unfold splitSp
    rw [if_neg hc, ih hcs]
    rfl

theorem splitSp_join (ws : List Str) (hne : ws ≠ []) (h : ∀ w ∈ ws, spC ∉ w) :
    splitSp (joinSp ws) = ws := by
  induction ws with
  | nil => exact absurd rfl hne
  | cons w ws ih =>
    cases ws with
    | nil =>
      show splitSp (joinSp [w]) = [w]
      have hj : joinSp [w] = w ++ [] := by simp [joinSp]
      rw [hj, splitSp_append w [] [] [] (h w (List.mem_cons_self _ _)) rfl]
      simp
    | cons w2 ws2 =>
      have ihr : splitSp (joinSp (w2 :: ws2)) = w2 :: ws2 :=
        ih (by simp) (fun x hx => h x (List.mem_cons_of_mem _ hx))
      have hrest : splitSp (spC :: joinSp (w2 :: ws2)) = [] :: (w2 :: ws2) := by
        unfold splitSp
        rw [if_pos rfl, ihr]
      have hj : joinSp (w :: w2 :: ws2) = w ++ spC :: joinSp (w2 :: ws2) := rfl
      rw [hj, splitSp_append w _ [] (w2 :: ws2) (h w (List.mem_cons_self _ _)) hrest]
      simp

theorem splitSp_map (f : Nat → Nat) (hf : ∀ c, f c = spC ↔ c = spC) (l : Str) :
    splitSp (l.map f) = (splitSp l).map (List.map f) := by
  induction l with
  | nil => rfl
  | cons c cs ih =>
    show splitSp (f c :: cs.map f) = _
    by_cases hc : c = spC
    · have hfc : f c = spC := (hf c).mpr hc
      unfold splitSp
      rw [if_pos hfc, if_pos hc, ih]
      rfl
    · have hfc : f c ≠ spC := fun h => hc ((hf c).mp h)
      unfold splitSp
      rw [if_neg hfc, if_neg hc, ih]
      cases h : splitSp cs with
      | nil => exact absurd h (splitSp_ne_nil cs)
      | cons w ws => simp

theorem capitalizeWord_no_sp (w : Str) (hw : spC ∉ w) : spC ∉ capitalizeWord w := by
  cases w with
  | nil => simp [capitalizeWord]
  | cons c cs =>
    intro hsp
    rcases List.mem_cons.mp hsp with h1 | h2
    · exact hw (List.mem_cons.mpr (Or.inl ((upperCode_eq_sp c).mp h1.symm).symm))
    · exact hw (List.mem_cons_of_mem _ h2)

/-- The Title Caser's output, word by word: splitting the output gives
exactly the input's words, each lowercased then head-capitalized. -/
theorem toTitleCase_splitSp (s : Str) :
    splitSp (toTitleCase s) = (splitSp s).map fun w => capitalizeWord (w.map lowerCode) := by
  by_cases hs : s = []
  · subst hs; rfl
  · unfold toTitleCase
    rw [if_neg hs]
    have h1 : splitSp (s.map lowerCode) = (splitSp s).map (List.map lowerCode) :=
      splitSp_map lowerCode lowerCode_eq_sp s
    rw [splitSp_join _ (by simp [splitSp_ne_nil]) ?nosp, h1, List.map_map]
    · rfl
    case nosp =>
      intro w' hw'
      rcases List.mem_map.mp hw' with ⟨w, hw, rfl⟩
      exact capitalizeWord_no_sp w (splitSp_no_sp _ w hw)

theorem upperCode_lowerCode_alpha (c : Nat) (h : isAlphaCode c) :
    isUpperCode (upperCode (lowerCode c)) := by
  unfold isAlphaCode isLowerCode isUpperCode at *
  unfold upperCode lowerCode
  split_ifs <;> omega

theorem upperCode_lowerCode_nonalpha (c : Nat) (h : ¬ isAlphaCode c) :
    upperCode (lowerCode c) = c := by
  unfold isAlphaCode isLowerCode isUpperCode at h
  unfold upperCode lowerCode
  split_ifs <;> omega

theorem lowerCode_lowerCode_upperCode (c : Nat) :
    lowerCode (upperCode (lowerCode c)) = lowerCode c := by
  unfold upperCode lowerCode
  split_ifs <;> omega

theorem lowerCode_nonalpha (c : Nat) (h : ¬ isAlphaCode c) : lowerCode c = c := by
  unfold isAlphaCode isLowerCode isUpperCode at h
  unfold lowerCode
  split_ifs <;> omega

theorem lowerCode_alpha_isLower (c : Nat) (h : isAlphaCode (lowerCode c)) :
    isLowerCode (lowerCode c) := by
  unfold isAlphaCode isLowerCode isUpperCode at *
  unfold lowerCode at *
  split_ifs at h ⊢ <;> omega

/-- C7 counterexample — the claim "each word's first alphabetic character
is uppercase" is false on the code: the caser uppercases the word's first
*character*, so `"(a)"` comes back unchanged with its first alphabetic
character still lowercase. -/
theorem toTitleCase_claim_counterexample :
    toTitleCase (strC "(a)") = strC "(a)" ∧
    ¬ (∀ w ∈ splitSp (toTitleCase (strC "(a)")), firstAlphaUpper w = true) := by
  constructor
  · decide
  · decide

/-- C7 (amended) — Title Caser shape preservation: for every input, the
output has the same word count; word by word, the output is the input
word lowercased then capitalized at its *first character*; each word
keeps its length, non-alphabetic characters are unchanged in place, the
first character — when alphabetic — becomes uppercase (the same letter),
every later alphabetic character is lowercase, and empty input yields
empty output.  (A word starting with a non-alphabetic character keeps
its first alphabetic character lowercase.) -/
theorem toTitleCase_shape (s : Str) :
    toTitleCase [] = [] ∧
    (splitSp (toTitleCase s)).length = (splitSp s).length ∧
    splitSp (toTitleCase s) = ((splitSp s).map fun w => capitalizeWord (w.map lowerCode)) ∧
    ∀ w ∈ splitSp s,
      (capitalizeWord (w.map lowerCode)).length = w.length ∧
      (∀ (j c : Nat), w[j]? = some c → ¬ isAlphaCode c →
        (capitalizeWord (w.map lowerCode))[j]? = some c) ∧
      (∀ c, w.head? = some c → isAlphaCode c →
        ∃ u, (capitalizeWord (w.map lowerCode)).head? = some u ∧
          isUpperCode u ∧ lowerCode u = lowerCode c) ∧
      (∀ (j c : Nat), 0 < j → (capitalizeWord (w.map lowerCode))[j]? = some c →
        isAlphaCode c → isLowerCode c) := by
  refine ⟨rfl, ?_, toTitleCase_splitSp s, ?_⟩
  · rw [toTitleCase_splitSp s, List.length_map]
  · intro w _
    cases w with
    | nil =>
      refine ⟨rfl, ?_, ?_, ?_⟩
      · intro j c h
        simp at h
      · intro c h
        cases h
      · intro j c hj h
        simp [capitalizeWord] at h
    | cons c0 cs =>
      have hcap : capitalizeWord ((c0 :: cs).map lowerCode)
          = upperCode (lowerCode c0) :: cs.map lowerCode := rfl
      rw [hcap]
      refine ⟨by simp, ?_, ?_, ?_⟩
      · intro j c hj hna
        cases j with
        | zero =>
          have hc : c0 = c := by simpa using hj
          subst hc
          simp [upperCode_lowerCode_nonalpha c0 hna]
        | succ n =>
          have hj' : cs[n]? = some c := by simpa using hj
          simp [List.getElem?_map, hj', lowerCode_nonalpha c hna]
      · intro c hc ha
        have hc0 : c0 = c := by simpa using hc
        subst hc0
        exact ⟨upperCode (lowerCode c0), rfl, upperCode_lowerCode_alpha c0 ha,
          lowerCode_lowerCode_upperCode c0⟩
      · intro j c hj hget ha
        cases j with
        | zero => omega
        | succ n =>
          have h1 : (cs.map lowerCode)[n]? = some c := by simpa using hget
          rw [List.getElem?_map] at h1
          cases h2 : cs[n]? with
          | none => rw [h2] at h1; cases h1
          | some c' =>
            rw [h2] at h1
            have : lowerCode c' = c := by simpa using h1
            rw [← this] at ha ⊢
            exact lowerCode_alpha_isLower c' ha

/-- Witness for `toTitleCase_shape`: on the concrete input `"the lord"`,
the second word's head `'l'` is uppercased to the same letter. -/
theorem toTitleCase_shape_witness :
    ∃ u, (capitalizeWord ((strC "lord").map lowerCode)).head? = some u ∧
      isUpperCode u ∧ lowerCode u = lowerCode 108 :=
  (((toTitleCase_shape (strC "the lord")).2.2.2 (strC "lord")
    (by decide)).2.2.1) 108 (by decide) (by decide)

/-! ## Batch Orchestrator lemmas -/

theorem finalizeItem_id (pipeline : Str → Except Str PipeOut) (x : BulkImportItem) :
    (finalizeItem pipeline x).id = x.id := by
  unfold finalizeItem
  cases pipeline x.id <;> rfl

theorem updateById_comp (items : List BulkImportItem) (id : Str)
    (f g : BulkImportItem → BulkImportItem) (hf : ∀ x, (f x).id = x.id) :
    updateById (updateById items id f) id g =
      items.map fun x => if x.id = id then g (f x) else x := by
  unfold updateById
  rw [List.map_map]
  apply List.map_congr_left
  intro x _
  by_cases hx : x.id = id
  · simp [Function.comp, hx, hf]
  · simp [Function.comp, hx]

/-- The orchestrator loop, characterized: running the (nodup) id list
turns exactly the listed items into their finalized form and leaves
every other item untouched. -/
theorem runBatch_eq (pipeline : Str → Except Str PipeOut) :
    ∀ (L : List Str), L.Nodup → ∀ (items : List BulkImportItem),
      runBatch pipeline items L =
        items.map fun x => if x.id ∈ L then finalizeItem pipeline x else x := by
  intro L
  induction L with
  | nil =>
    intro _ items
    simp [runBatch]
  | cons id rest ih =>
    intro hnd items
    have hidr : id ∉ rest := (List.nodup_cons.mp hnd).1
    have hrest : rest.Nodup := (List.nodup_cons.mp hnd).2
    rw [runBatch]
    cases hpl : pipeline id with
    | ok r =>
      simp only [hpl]
      rw [updateById_comp items id (fun x => { x with status := .processing }) _
        (fun x => rfl), ih hrest, List.map_map]
      apply List.map_congr_left
      intro x _
      by_cases hx : x.id = id
      · have hfin : finalizeItem pipeline x =
            { x with status := .completed, data := mergeData x.data r,
                     processedImage := some r.processedImage } := by
          unfold finalizeItem
          rw [hx, hpl]
        simp only [Function.comp, hx, if_pos rfl]
        rw [if_neg (by simpa using hidr), if_pos (List.mem_cons_self _ _), hfin]
        simp [hx]
      · simp only [Function.comp, if_neg hx]
        by_cases hr : x.id ∈ rest
        · rw [if_pos hr, if_pos (List.mem_cons_of_mem _ hr)]
        · rw [if_neg hr, if_neg (by simp [hx, hr])]
    | error e =>
      simp only [hpl]
      rw [updateById_comp items id (fun x => { x with status := .processing }) _
        (fun x => rfl), ih hrest, List.map_map]
      apply List.map_congr_left
      intro x _
      by_cases hx : x.id = id
      · have hfin : finalizeItem pipeline x =
            { x with status := .error, error := some (strC "Failed") } := by
          unfold finalizeItem
          rw [hx, hpl]
        simp only [Function.comp, hx, if_pos rfl]
        rw [if_neg (by simpa using hidr), if_pos (List.mem_cons_self _ _), hfin]
        simp [hx]
      · simp only [Function.comp, if_neg hx]
        by_cases hr : x.id ∈ rest
        · rw [if_pos hr, if_pos (List.mem_cons_of_mem _ hr)]
        · rw [if_neg hr, if_neg (by simp [hx, hr])]

theorem finalizeItem_ok (pipeline : Str → Except Str PipeOut) (x : BulkImportItem)
    (r : PipeOut) (hr : pipeline x.id = .ok r) :
    finalizeItem pipeline x =
      { x with status := .completed, data := mergeData x.data r,
               processedImage := some r.processedImage } := by
  unfold finalizeItem
  rw [hr]

theorem finalizeItem_failed (pipeline : Str → Except Str PipeOut) (x : BulkImportItem)
    (e : Str) (he : pipeline x.id = .error e) :
    finalizeItem pipeline x =
      { x with status := .error, error := some (strC "Failed") } := by
  unfold finalizeItem
  rw [he]

/-- C1 — Batch Orchestrator failure isolation: over a batch of pending
items with distinct ids, when the pipeline throws for exactly the item
with id `k` and succeeds for every other item, the completed run leaves
item `k` with status Failed, its error note set and its record
untouched, leaves every other item with status Done, and leaves no item
with status Processing. -/
theorem startBulkProcessing_isolation
    (items : List BulkImportItem) (pipeline : Str → Except Str PipeOut) (k : Str)
    (hnd : (items.map fun i => i.id).Nodup)
    (hidle : ∀ x ∈ items, x.status = .idle)
    (hfail : ∃ e, pipeline k = .error e)
    (hok : ∀ x ∈ items, x.id ≠ k → ∃ r, pipeline x.id = .ok r) :
    (∀ y ∈ startBulkProcessing pipeline items, y.status ≠ .processing) ∧
    (∀ (n : Nat) (x : BulkImportItem), items[n]? = some x →
      ∃ y, (startBulkProcessing pipeline items)[n]? = some y ∧ y.id = x.id ∧
        (x.id = k → y.status = .error ∧ y.error = some (strC "Failed") ∧
          y.data = x.data) ∧
        (x.id ≠ k → y.status = .completed)) := by
  have hfilter : (items.filter fun i => i.status = .idle) = items :=
    List.filter_eq_self.mpr (fun a ha => by simp [hidle a ha])
  have hout : startBulkProcessing pipeline items =
      items.map fun x =>
        if x.id ∈ items.map (fun i => i.id) then finalizeItem pipeline x else x := by
    unfold startBulkProcessing
    rw [hfilter, runBatch_eq pipeline _ hnd]
  have hfin : ∀ x ∈ items,
      (if x.id ∈ items.map (fun i => i.id) then finalizeItem pipeline x else x)
        = finalizeItem pipeline x := by
    intro x hx
    rw [if_pos (List.mem_map_of_mem _ hx)]
  constructor
  · intro y hy
    rw [hout] at hy
    rcases List.mem_map.mp hy with ⟨x, hx, rfl⟩
    rw [hfin x hx]
    by_cases hxk : x.id = k
    · obtain ⟨e, he⟩ := hfail
      rw [finalizeItem_failed pipeline x e (by rw [hxk]; exact he)]
      simp
    · obtain ⟨r, hr⟩ := hok x hx hxk
      rw [finalizeItem_ok pipeline x r hr]
      simp
  · intro n x hn
    have hxmem : x ∈ items := List.getElem?_mem hn
    have hyv : (startBulkProcessing pipeline items)[n]? = some (finalizeItem pipeline x) := by
      rw [hout, List.getElem?_map, hn]
      simp only [Option.map_some']
      rw [hfin x hxmem]
    refine ⟨finalizeItem pipeline x, hyv, finalizeItem_id pipeline x, ?_, ?_⟩
    · intro hk
      obtain ⟨e, he⟩ := hfail
      rw [finalizeItem_failed pipeline x e (by rw [hk]; exact he)]
      exact ⟨rfl, rfl, rfl⟩
    · intro hk
      obtain ⟨r, hr⟩ := hok x hxmem hk
      rw [finalizeItem_ok pipeline x r hr]

/-- Witness for `startBulkProcessing_isolation`: in a two-item batch
where the pipeline fails exactly on item `"b"`, item `"b"` ends Failed
with its note set while its record is untouched. -/
theorem startBulkProcessing_isolation_witness :
    ∃ y, (startBulkProcessing pipelineW bulkItemsW)[1]? = some y ∧
      y.id = strC "b" ∧ y.status = .error ∧ y.error = some (strC "Failed") ∧
      y.data = bulkItemB.data := by
  have hok : ∀ x ∈ bulkItemsW, x.id ≠ strC "b" → ∃ r, pipelineW x.id = .ok r := by
    intro x _ hne
    refine ⟨pipeOutW, ?_⟩
    unfold pipelineW
    rw [if_neg hne]
  have h := startBulkProcessing_isolation bulkItemsW pipelineW (strC "b")
    (by decide) (by decide) ⟨strC "E", rfl⟩ hok
  obtain ⟨y, hy, hid, hfailcase, _⟩ := h.2 1 bulkItemB (by decide)
  obtain ⟨hs, he, hd⟩ := hfailcase (by decide)
  exact ⟨y, hy, by rw [hid]; decide, hs, he, hd⟩

/-- C3 — Batch price preservation: for items entering the batch via the
bulk intake, a successful pipeline run fills title, author, category and
synopsis from the pipeline output while the price stays the value
extracted from the item's filename at intake, whatever the pipeline
returned. -/
theorem bulk_price_preserved (files : List (Str × Str))
    (pipeline : Str → Except Str PipeOut)
    (hnd : (files.map Prod.fst).Nodup) :
    ∀ (n : Nat) (id name : Str) (r : PipeOut), files[n]? = some (id, name) →
      pipeline id = .ok r →
      ∃ y, (startBulkProcessing pipeline (handleBulkFilesSelected files))[n]? = some y ∧
        y.id = id ∧ y.status = .completed ∧
        y.data.title = r.title ∧ y.data.author = r.author ∧
        y.data.category = r.category ∧ y.data.synopsis = r.synopsis ∧
        y.data.price = extractPriceFromFilename name := by
  intro n id name r hn hr
  have hids : (handleBulkFilesSelected files).map (fun i => i.id) = files.map Prod.fst := by
    unfold handleBulkFilesSelected
    rw [List.map_map]
    rfl
  have hnd' : ((handleBulkFilesSelected files).map fun i => i.id).Nodup := by
    rw [hids]; exact hnd
  have hidle : ∀ x ∈ handleBulkFilesSelected files, x.status = .idle := by
    intro x hx
    unfold handleBulkFilesSelected at hx
    rcases List.mem_map.mp hx with ⟨p, _, rfl⟩
    rfl
  have hfilter : ((handleBulkFilesSelected files).filter fun i => i.status = .idle)
      = handleBulkFilesSelected files :=
    List.filter_eq_self.mpr (fun a ha => by simp [hidle a ha])
  have hout : startBulkProcessing pipeline (handleBulkFilesSelected files) =
      (handleBulkFilesSelected files).map fun x =>
        if x.id ∈ (handleBulkFilesSelected files).map (fun i => i.id)
        then finalizeItem pipeline x else x := by
    unfold startBulkProcessing
    rw [hfilter, runBatch_eq pipeline _ hnd']
  have hxn : (handleBulkFilesSelected files)[n]? = some
      { id := id, file := name, status := .idle,
        data := { title := [], author := [], synopsis := [],
                  price := extractPriceFromFilename name, category := [] },
        processedImage := none, error := none } := by
    unfold handleBulkFilesSelected
    rw [List.getElem?_map, hn]
    rfl
  have hxmem := List.getElem?_mem hxn
  have hyv : (startBulkProcessing pipeline (handleBulkFilesSelected files))[n]?
      = some (finalizeItem pipeline
        { id := id, file := name, status := .idle,
          data := { title := [], author := [], synopsis := [],
                    price := extractPriceFromFilename name, category := [] },
          processedImage := none, error := none }) := by
    rw [hout, List.getElem?_map, hxn]
    simp only [Option.map_some']
    rw [if_pos (List.mem_map_of_mem _ hxmem)]
  rw [finalizeItem_ok pipeline _ r hr] at hyv
  exact ⟨_, hyv, rfl, rfl, rfl, rfl, rfl, rfl, rfl⟩

/-- Witness for `bulk_price_preserved`: intake of `"380.1.jpg"` followed
by a successful run keeps price `"380"` while taking the title from the
pipeline output. -/
theorem bulk_price_preserved_witness :
    ∃ y, (startBulkProcessing pipelineOkW (handleBulkFilesSelected filesW))[0]? = some y ∧
      y.id = strC "a" ∧ y.status = .completed ∧
      y.data.title = pipeOutW.title ∧ y.data.author = pipeOutW.author ∧
      y.data.category = pipeOutW.category ∧ y.data.synopsis = pipeOutW.synopsis ∧
      y.data.price = extractPriceFromFilename (strC "380.1.jpg") :=
  bulk_price_preserved filesW pipelineOkW (by decide) 0 (strC "a") (strC "380.1.jpg")
    pipeOutW (by decide) rfl
